import Mathlib

/-!
Shallow embedding of the greedy topic-diversification re-ranker from
`re_ranking_topic_diversification.ipynb` (the re-ranking cell, cell-10),
together with proofs of the behavioural properties claimed for it.

Modelling notes, tied to the source line by line:

* A row of `moviesToRerank` carries the columns `MovieID` (the index of the
  joined frame), `Title`, `score` and `Genres`; only these four enter the
  re-ranking cell, so `Movie` has exactly these fields.  The `score` column
  holds `AvgRating * UserCount`; the algorithm uses scores only through
  order comparisons, so they are embedded as integers (the fixtures in the
  specification are integer valued).
* `genresInList = get_unique_items_in_column(moviesToRerank, 'Genres')`
  folds a set-union of the per-row genre lists over the frame, embedded as
  `genresOf`.
* `moviesToRerank.sort_values(col, ascending=False)` is embedded as a
  stable descending sort (`sortDesc`).  pandas computes a descending sort
  by reversing the rows, running `numpy.argsort`, and reversing the result,
  which keeps rows with equal keys in their current relative order whenever
  the underlying argsort is stable; numpy introsort degenerates to
  insertion sort on fewer than 16 rows, so on the fixture sizes relevant
  here the sort is exactly the stable one.
* The `while` loop of the cell keeps `uncoveredGenres` (despite its name it
  holds the genres already covered), appends `moviesToRerank.iloc[0]` after
  sorting by the freshly computed `nGenres` column, and drops that row.
  The loop is embedded as `phase1`, structurally recursive on a fuel
  argument initialised to the number of candidate rows; every iteration
  removes one row from the frame, so the fuel never runs out before the
  frame does.  The two `fuel = 0` / empty-frame exits coincide with the
  state `remaining = []`, in which Python would fault on `iloc[0]`; the
  loop condition can be shown false there (`phase1_empty_cond_false`), so
  these branches are unreachable from `reRank`.
* `phase1` also records, for each iteration, the covered set and the frame
  as they were at the top of the loop body plus the selected row (`Step`),
  so that per-step claims can be stated.
* The trailing `for` loop over the score-sorted leftover frame is embedded
  as `phase2`; it stops once `movieIndex >= recListSize`, and skips a row
  exactly when its `Title` already occurs in the slate built so far.
-/

structure Movie where
  movieId : Nat
  title : String
  score : Int
  genres : List String
deriving DecidableEq

/-- The set of genres occurring in a list of rows, as computed by
`get_unique_items_in_column(dataset, 'Genres')`: a fold of set unions over
the rows. -/
def genresOf (l : List Movie) : Finset String :=
  List.foldl (fun s m => s ∪ m.genres.toFinset) ∅ l

/-- The `nGenres` column of the source: for a row `m`,
`len(set(m.Genres).difference(uncoveredGenres))`, the number of genres of
`m` not yet covered. -/
def nGenres (covered : Finset String) (m : Movie) : Nat :=
  (m.genres.toFinset \ covered).card

/-- One insertion step of the stable descending sort: `x` is placed before
the first element whose key is at most `key x`, so rows with equal keys
keep their current relative order. -/
def insertDesc {κ : Type} [LinearOrder κ] (key : Movie → κ) (x : Movie) :
    List Movie → List Movie
  | [] => [x]
  | y :: ys => if key y ≤ key x then x :: y :: ys else y :: insertDesc key x ys

/-- Stable descending sort by `key`, the embedding of
`sort_values(col, ascending=False)` on the frame sizes of interest. -/
def sortDesc {κ : Type} [LinearOrder κ] (key : Movie → κ) :
    List Movie → List Movie
  | [] => []
  | x :: xs => insertDesc key x (sortDesc key xs)

/-- The observable state of one iteration of the greedy loop: the covered
genre set and the frame at the top of the loop body, and the row the
iteration appended to the slate. -/
structure Step where
  coveredBefore : Finset String
  remainingBefore : List Movie
  selected : Movie
deriving DecidableEq

/-- The state left behind by the greedy loop: the recorded iterations, the
rows still in `moviesToRerank`, and the final `movieIndex`. -/
structure Phase1Result where
  steps : List Step
  remaining : List Movie
  movieIndex : Nat
deriving DecidableEq

/-- The `while` loop of the re-ranking cell.  The loop runs while some
genre of `genresInList` is uncovered and `movieIndex < recListSize`; each
iteration sorts the frame by the recomputed `nGenres` column (descending,
stable), appends the first row, adds its genres to the covered set,
increments `movieIndex` and drops the row.  `fuel` starts at the number of
rows and decreases with the frame, so the `fuel = 0` branch and the
empty-frame branch are only reached with `remaining = []`, where the loop
condition is false anyway (`phase1_empty_cond_false`). -/
def phase1 (genresInList : Finset String) (recListSize : Int) :
    Nat → List Movie → Finset String → Nat → Phase1Result
  | 0, remaining, _, movieIndex => ⟨[], remaining, movieIndex⟩
  | fuel + 1, remaining, covered, movieIndex =>
    if (genresInList \ covered).Nonempty ∧ (movieIndex : Int) < recListSize then
      match sortDesc (nGenres covered) remaining with
      | [] => ⟨[], remaining, movieIndex⟩
      | top :: rest =>
        let r := phase1 genresInList recListSize fuel rest
          (covered ∪ top.genres.toFinset) (movieIndex + 1)
        ⟨⟨covered, remaining, top⟩ :: r.steps, r.remaining, r.movieIndex⟩
    else ⟨[], remaining, movieIndex⟩

/-- The trailing `for` loop of the cell: walk the leftover rows in order,
break once `movieIndex >= recListSize`, append a row when its `Title` is
not yet among the slate titles, and otherwise skip it. -/
def phase2 (recListSize : Int) :
    List Movie → Nat → List Movie → List Movie
  | slate, _, [] => slate
  | slate, movieIndex, m :: rest =>
    if recListSize ≤ (movieIndex : Int) then slate
    else if m.title ∈ slate.map Movie.title then
      phase2 recListSize slate movieIndex rest
    else
      phase2 recListSize (slate ++ [m]) (movieIndex + 1) rest

/-- The whole re-ranking cell: run the greedy loop from an empty covered
set and `movieIndex = 0`, then re-sort the leftover rows by `score`
(descending, stable) and fill the slate with the `for` loop. -/
def reRank (candidates : List Movie) (recListSize : Int) : List Movie :=
  let genresInList := genresOf candidates
  let r := phase1 genresInList recListSize candidates.length candidates ∅ 0
  let slate := r.steps.map Step.selected
  phase2 recListSize slate r.movieIndex (sortDesc (fun m => m.score) r.remaining)

/-! ### Concrete fixtures from the specification and the claims -/

/-- Scenario A, item A. -/
def mA : Movie := ⟨1, "A", 100, ["Action"]⟩

/-- Scenario A, item B. -/
def mB : Movie := ⟨2, "B", 90, ["Drama"]⟩

/-- Scenario A, item C. -/
def mC : Movie := ⟨3, "C", 80, ["Action", "Drama"]⟩

/-- Scenario A, item D. -/
def mD : Movie := ⟨4, "D", 70, ["Comedy"]⟩

/-- Scenario A candidate list, in descending score order. -/
def scenarioA : List Movie := [mA, mB, mC, mD]

/-- Tie-break probe, item P: highest score, one genre. -/
def mP : Movie := ⟨11, "P", 100, ["a"]⟩

/-- Tie-break probe, item Q: two fresh genres. -/
def mQ : Movie := ⟨12, "Q", 90, ["b", "c"]⟩

/-- Tie-break probe, item R: overlaps both P and Q. -/
def mR : Movie := ⟨13, "R", 80, ["a", "b"]⟩

/-- Candidate list probing the tie-break of the second greedy step. -/
def scenarioT : List Movie := [mP, mQ, mR]

/-- Duplicate-title pair, first row: distinct ids, same title, same genre. -/
def mS1 : Movie := ⟨41, "T", 100, ["a"]⟩

/-- Duplicate-title pair, second row. -/
def mS2 : Movie := ⟨42, "T", 90, ["a"]⟩

/-- Candidate list with unique ids but a repeated title. -/
def dupTitle : List Movie := [mS1, mS2]

/-- Duplicate-title pair with disjoint genres, first row. -/
def mT1 : Movie := ⟨21, "T", 100, ["a"]⟩

/-- Duplicate-title pair with disjoint genres, second row. -/
def mT2 : Movie := ⟨22, "T", 90, ["b"]⟩

/-- Candidate list whose two same-title rows both carry fresh genres. -/
def dupTitleBoth : List Movie := [mT1, mT2]

/-- Duplicate-identifier pair, first row. -/
def mI1 : Movie := ⟨31, "T1", 100, ["a"]⟩

/-- Duplicate-identifier pair, second row: same id as the first. -/
def mI2 : Movie := ⟨31, "T2", 90, ["b"]⟩

/-- Candidate list with a repeated identifier. -/
def dupId : List Movie := [mI1, mI2]

/-! ### Lemmas about the stable descending sort -/

theorem insertDesc_perm {κ : Type} [LinearOrder κ] (key : Movie → κ) (x : Movie) :
    ∀ l : List Movie, (insertDesc key x l).Perm (x :: l)
  | [] => List.Perm.refl _
  | y :: ys => by
    unfold insertDesc
    by_cases h : key y ≤ key x
    · simp [h]
    · simp only [h, if_false]
      exact ((insertDesc_perm key x ys).cons y).trans (List.Perm.swap x y ys)

theorem sortDesc_perm {κ : Type} [LinearOrder κ] (key : Movie → κ) :
    ∀ l : List Movie, (sortDesc key l).Perm l
  | [] => List.Perm.refl _
  | x :: xs =>
    (insertDesc_perm key x (sortDesc key xs)).trans ((sortDesc_perm key xs).cons x)

theorem sortDesc_length {κ : Type} [LinearOrder κ] (key : Movie → κ)
    (l : List Movie) : (sortDesc key l).length = l.length :=
  (sortDesc_perm key l).length_eq

theorem sortDesc_mem {κ : Type} [LinearOrder κ] (key : Movie → κ)
    (l : List Movie) (m : Movie) : m ∈ sortDesc key l ↔ m ∈ l :=
  (sortDesc_perm key l).mem_iff

theorem insertDesc_pairwise {κ : Type} [LinearOrder κ] (key : Movie → κ)
    (x : Movie) : ∀ l : List Movie,
    l.Pairwise (fun a b => key b ≤ key a) →
    (insertDesc key x l).Pairwise (fun a b => key b ≤ key a)
  | [], _ => by simp [insertDesc]
  | y :: ys, h => by
    rcases List.pairwise_cons.1 h with ⟨hy, hys⟩
    unfold insertDesc
    by_cases hxy : key y ≤ key x
    · simp only [hxy, if_true]
      refine List.pairwise_cons.2 ⟨?_, h⟩
      intro z hz
      rcases List.mem_cons.1 hz with rfl | hz
      · exact hxy
      · exact (hy z hz).trans hxy
    · simp only [hxy, if_false]
      refine List.pairwise_cons.2 ⟨?_, insertDesc_pairwise key x ys hys⟩
      intro z hz
      rcases List.mem_cons.1 ((insertDesc_perm key x ys).mem_iff.1 hz) with rfl | hz
      · exact (not_le.1 hxy).le
      · exact hy z hz

theorem sortDesc_pairwise {κ : Type} [LinearOrder κ] (key : Movie → κ) :
    ∀ l : List Movie, (sortDesc key l).Pairwise (fun a b => key b ≤ key a)
  | [] => by simp [sortDesc]
  | x :: xs => insertDesc_pairwise key x (sortDesc key xs) (sortDesc_pairwise key xs)

/-- The first row of the stable descending sort is the first row of the
input attaining the maximal key: the input splits around it, every row has
key at most its key, and every strictly earlier row has a strictly smaller
key. -/
theorem sortDesc_head_spec {κ : Type} [LinearOrder κ] (key : Movie → κ) :
    ∀ (l : List Movie) (top : Movie) (rest : List Movie),
    sortDesc key l = top :: rest →
    ∃ l₁ l₂, l = l₁ ++ top :: l₂ ∧ (∀ z ∈ l, key z ≤ key top) ∧
      ∀ z ∈ l₁, key z < key top
  | [], top, rest => by simp [sortDesc]
  | a :: as, top, rest => by
    intro h
    rcases hs : sortDesc key as with _ | ⟨b, bs⟩
    · have has : as = [] := by
        have := sortDesc_length key as
        rw [hs] at this
        exact List.length_eq_zero.1 this.symm
      subst has
      simp only [sortDesc, hs, insertDesc, List.cons.injEq] at h
      obtain ⟨rfl, rfl⟩ := h
      exact ⟨[], [], by simp, by simp, by simp⟩
    · rcases sortDesc_head_spec key as b bs hs with ⟨m₁, m₂, hdec, hmax, hstrict⟩
      simp only [sortDesc, hs, insertDesc] at h
      by_cases hab : key b ≤ key a
      · simp only [hab, if_true, List.cons.injEq] at h
        obtain ⟨rfl, -⟩ := h
        refine ⟨[], as, by simp, ?_, by simp⟩
        intro z hz
        rcases List.mem_cons.1 hz with rfl | hz
        · exact le_refl _
        · exact (hmax z hz).trans hab
      · simp only [hab, if_false, List.cons.injEq] at h
        obtain ⟨rfl, -⟩ := h
        refine ⟨a :: m₁, m₂, by simp [hdec], ?_, ?_⟩
        · intro z hz
          rcases List.mem_cons.1 hz with rfl | hz
          · exact (not_le.1 hab).le
          · exact hmax z hz
        · intro z hz
          rcases List.mem_cons.1 hz with rfl | hz
          · exact not_le.1 hab
          · exact hstrict z hz

/-- The first row after the descending sort has maximal key among the
input rows. -/
theorem sortDesc_head_max {κ : Type} [LinearOrder κ] (key : Movie → κ)
    (l : List Movie) (top : Movie) (rest : List Movie)
    (h : sortDesc key l = top :: rest) : ∀ z ∈ l, key z ≤ key top := by
  rcases sortDesc_head_spec key l top rest h with ⟨l₁, l₂, _, hmax, _⟩
  exact hmax

/-! ### Unfolding lemmas for the greedy loop -/

theorem phase1_zero (g : Finset String) (k : Int) (rem : List Movie)
    (cov : Finset String) (i : Nat) : phase1 g k 0 rem cov i = ⟨[], rem, i⟩ := rfl

theorem phase1_succ_stop (g : Finset String) (k : Int) (f : Nat)
    (rem : List Movie) (cov : Finset String) (i : Nat)
    (hc : ¬((g \ cov).Nonempty ∧ (i : Int) < k)) :
    phase1 g k (f + 1) rem cov i = ⟨[], rem, i⟩ := by
  simp only [phase1, hc, if_false]

theorem phase1_succ_nil (g : Finset String) (k : Int) (f : Nat)
    (rem : List Movie) (cov : Finset String) (i : Nat)
    (hc : (g \ cov).Nonempty ∧ (i : Int) < k)
    (hs : sortDesc (nGenres cov) rem = []) :
    phase1 g k (f + 1) rem cov i = ⟨[], rem, i⟩ := by
  simp [phase1, hc, hs]

theorem phase1_succ_cons (g : Finset String) (k : Int) (f : Nat)
    (rem : List Movie) (cov : Finset String) (i : Nat) (top : Movie)
    (rest : List Movie) (hc : (g \ cov).Nonempty ∧ (i : Int) < k)
    (hs : sortDesc (nGenres cov) rem = top :: rest) :
    phase1 g k (f + 1) rem cov i =
      ⟨⟨cov, rem, top⟩ ::
        (phase1 g k f rest (cov ∪ top.genres.toFinset) (i + 1)).steps,
       (phase1 g k f rest (cov ∪ top.genres.toFinset) (i + 1)).remaining,
       (phase1 g k f rest (cov ∪ top.genres.toFinset) (i + 1)).movieIndex⟩ := by
  simp [phase1, hc, hs]

/-! ### Invariants of the greedy loop -/

theorem phase1_steps_length (g : Finset String) (k : Int) :
    ∀ (f : Nat) (rem : List Movie) (cov : Finset String) (i : Nat),
    (phase1 g k f rem cov i).steps.length +
      (phase1 g k f rem cov i).remaining.length = rem.length
  | 0, rem, cov, i => by simp [phase1_zero]
  | f + 1, rem, cov, i => by
    by_cases hc : (g \ cov).Nonempty ∧ (i : Int) < k
    · rcases hs : sortDesc (nGenres cov) rem with _ | ⟨top, rest⟩
      · simp [phase1_succ_nil g k f rem cov i hc hs]
      · have hlen : rest.length + 1 = rem.length := by
          have := sortDesc_length (nGenres cov) rem
          rw [hs] at this
          simpa using this
        rw [phase1_succ_cons g k f rem cov i top rest hc hs]
        have ih := phase1_steps_length g k f rest (cov ∪ top.genres.toFinset) (i + 1)
        simp only [List.length_cons]
        omega
    · simp [phase1_succ_stop g k f rem cov i hc]

theorem phase1_movieIndex (g : Finset String) (k : Int) :
    ∀ (f : Nat) (rem : List Movie) (cov : Finset String) (i : Nat),
    (phase1 g k f rem cov i).movieIndex = i + (phase1 g k f rem cov i).steps.length
  | 0, rem, cov, i => by simp [phase1_zero]
  | f + 1, rem, cov, i => by
    by_cases hc : (g \ cov).Nonempty ∧ (i : Int) < k
    · rcases hs : sortDesc (nGenres cov) rem with _ | ⟨top, rest⟩
      · simp [phase1_succ_nil g k f rem cov i hc hs]
      · rw [phase1_succ_cons g k f rem cov i top rest hc hs]
        have ih := phase1_movieIndex g k f rest (cov ∪ top.genres.toFinset) (i + 1)
        simp only [List.length_cons]
        omega
    · simp [phase1_succ_stop g k f rem cov i hc]

theorem phase1_movieIndex_le (g : Finset String) (k : Int) :
    ∀ (f : Nat) (rem : List Movie) (cov : Finset String) (i : Nat),
    (i : Int) ≤ k → ((phase1 g k f rem cov i).movieIndex : Int) ≤ k
  | 0, rem, cov, i => by simp [phase1_zero]
  | f + 1, rem, cov, i => by
    intro hi
    by_cases hc : (g \ cov).Nonempty ∧ (i : Int) < k
    · rcases hs : sortDesc (nGenres cov) rem with _ | ⟨top, rest⟩
      · simpa [phase1_succ_nil g k f rem cov i hc hs] using hi
      · rw [phase1_succ_cons g k f rem cov i top rest hc hs]
        exact phase1_movieIndex_le g k f rest (cov ∪ top.genres.toFinset) (i + 1)
          (by exact_mod_cast hc.2)
    · simpa [phase1_succ_stop g k f rem cov i hc] using hi

/-- The rows picked by the greedy loop together with the leftover rows are
a permutation of the input frame. -/
theorem phase1_perm (g : Finset String) (k : Int) :
    ∀ (f : Nat) (rem : List Movie) (cov : Finset String) (i : Nat),
    ((phase1 g k f rem cov i).steps.map Step.selected ++
      (phase1 g k f rem cov i).remaining).Perm rem
  | 0, rem, cov, i => by simp [phase1_zero]
  | f + 1, rem, cov, i => by
    by_cases hc : (g \ cov).Nonempty ∧ (i : Int) < k
    · rcases hs : sortDesc (nGenres cov) rem with _ | ⟨top, rest⟩
      · simp [phase1_succ_nil g k f rem cov i hc hs]
      · rw [phase1_succ_cons g k f rem cov i top rest hc hs]
        have ih := phase1_perm g k f rest (cov ∪ top.genres.toFinset) (i + 1)
        have hrem : (top :: rest).Perm rem := by
          rw [← hs]
          exact sortDesc_perm (nGenres cov) rem
        simp only [List.map_cons, List.cons_append]
        exact (ih.cons top).trans hrem
    · simp [phase1_succ_stop g k f rem cov i hc]

/-- Each greedy iteration selects a row with maximal `nGenres` among the
rows then remaining. -/
theorem phase1_steps_max (g : Finset String) (k : Int) :
    ∀ (f : Nat) (rem : List Movie) (cov : Finset String) (i : Nat),
    ∀ e ∈ (phase1 g k f rem cov i).steps, ∀ m ∈ e.remainingBefore,
      nGenres e.coveredBefore m ≤ nGenres e.coveredBefore e.selected
  | 0, rem, cov, i => by simp [phase1_zero]
  | f + 1, rem, cov, i => by
    by_cases hc : (g \ cov).Nonempty ∧ (i : Int) < k
    · rcases hs : sortDesc (nGenres cov) rem with _ | ⟨top, rest⟩
      · simp [phase1_succ_nil g k f rem cov i hc hs]
      · rw [phase1_succ_cons g k f rem cov i top rest hc hs]
        intro e he
        rcases List.mem_cons.1 he with rfl | he
        · intro m hm
          exact sortDesc_head_max (nGenres cov) rem top rest hs m hm
        · exact phase1_steps_max g k f rest (cov ∪ top.genres.toFinset) (i + 1) e he
    · simp [phase1_succ_stop g k f rem cov i hc]

/-! ### Genre bookkeeping -/

theorem mem_genresOf_aux (x : String) :
    ∀ (l : List Movie) (acc : Finset String),
    (x ∈ List.foldl (fun s m => s ∪ m.genres.toFinset) acc l ↔
      x ∈ acc ∨ ∃ m ∈ l, x ∈ m.genres.toFinset)
  | [], acc => by simp
  | m :: ms, acc => by
    simp only [List.foldl_cons, mem_genresOf_aux x ms, Finset.mem_union,
      List.mem_cons]
    constructor
    · rintro (⟨h | h⟩ | ⟨z, hz, hx⟩)
      · exact Or.inl h
      · exact Or.inr ⟨m, Or.inl rfl, h⟩
      · exact Or.inr ⟨z, Or.inr hz, hx⟩
    · rintro (h | ⟨z, rfl | hz, hx⟩)
      · exact Or.inl (Or.inl h)
      · exact Or.inl (Or.inr hx)
      · exact Or.inr ⟨z, hz, hx⟩

theorem mem_genresOf (x : String) (l : List Movie) :
    x ∈ genresOf l ↔ ∃ m ∈ l, x ∈ m.genres.toFinset := by
  simp [genresOf, mem_genresOf_aux]

/-- With an empty frame every genre reachable from the frame is covered,
so the loop condition of the `while` loop is false: the `iloc[0]` fault of
the source is unreachable. -/
theorem phase1_empty_cond_false (g cov : Finset String)
    (hsub : g ⊆ cov ∪ genresOf []) : ¬(g \ cov).Nonempty := by
  rintro ⟨x, hx⟩
  rcases Finset.mem_sdiff.1 hx with ⟨hxg, hxcov⟩
  rcases Finset.mem_union.1 (hsub hxg) with h | h
  · exact hxcov h
  · rcases (mem_genresOf x []).1 h with ⟨m, hm, -⟩
    exact absurd hm (List.not_mem_nil m)

/-- Every row the greedy loop selects still contributes at least one new
genre, as long as every genre of `genresInList` is covered or carried by
some remaining row — which holds at the top-level call, where the two sets
coincide. -/
theorem phase1_steps_pos (g : Finset String) (k : Int) :
    ∀ (f : Nat) (rem : List Movie) (cov : Finset String) (i : Nat),
    g ⊆ cov ∪ genresOf rem →
    ∀ e ∈ (phase1 g k f rem cov i).steps, 1 ≤ nGenres e.coveredBefore e.selected
  | 0, rem, cov, i => by simp [phase1_zero]
  | f + 1, rem, cov, i => by
    intro hsub
    by_cases hc : (g \ cov).Nonempty ∧ (i : Int) < k
    · rcases hs : sortDesc (nGenres cov) rem with _ | ⟨top, rest⟩
      · simp [phase1_succ_nil g k f rem cov i hc hs]
      · rw [phase1_succ_cons g k f rem cov i top rest hc hs]
        have hmemsorted : ∀ m ∈ rem, m = top ∨ m ∈ rest := by
          intro m hm
          have : m ∈ top :: rest := by
            rw [← hs]
            exact (sortDesc_mem (nGenres cov) rem m).2 hm
          exact List.mem_cons.1 this
        intro e he
        rcases List.mem_cons.1 he with rfl | he
        · rcases hc.1 with ⟨x, hx⟩
          rcases Finset.mem_sdiff.1 hx with ⟨hxg, hxcov⟩
          rcases Finset.mem_union.1 (hsub hxg) with h | h
          · exact absurd h hxcov
          · rcases (mem_genresOf x rem).1 h with ⟨m, hm, hxm⟩
            have hmpos : 1 ≤ nGenres cov m := by
              refine Nat.one_le_iff_ne_zero.2 ?_
              intro h0
              have : x ∈ m.genres.toFinset \ cov := Finset.mem_sdiff.2 ⟨hxm, hxcov⟩
              rw [nGenres] at h0
              exact absurd (Finset.card_eq_zero.1 h0 ▸ this) (Finset.not_mem_empty x)
            exact hmpos.trans (sortDesc_head_max (nGenres cov) rem top rest hs m hm)
        · refine phase1_steps_pos g k f rest (cov ∪ top.genres.toFinset) (i + 1)
            ?_ e he
          intro z hz
          rcases Finset.mem_union.1 (hsub hz) with h | h
          · exact Finset.mem_union_left _ (Finset.mem_union_left _ h)
          · rcases (mem_genresOf z rem).1 h with ⟨m, hm, hzm⟩
            rcases hmemsorted m hm with rfl | hm
            · exact Finset.mem_union_left _ (Finset.mem_union_right _ hzm)
            · exact Finset.mem_union_right _ ((mem_genresOf z rest).2 ⟨m, hm, hzm⟩)
    · simp [phase1_succ_stop g k f rem cov i hc]

/-! ### Lemmas about the score-fill loop -/

theorem phase2_nil (k : Int) (s : List Movie) (i : Nat) :
    phase2 k s i [] = s := rfl

theorem phase2_cons (k : Int) (s : List Movie) (i : Nat) (m : Movie)
    (rest : List Movie) :
    phase2 k s i (m :: rest) =
      if k ≤ (i : Int) then s
      else if m.title ∈ s.map Movie.title then phase2 k s i rest
      else phase2 k (s ++ [m]) (i + 1) rest := rfl

/-- The score-fill loop only ever appends rows taken, in order, from its
input frame. -/
theorem phase2_append (k : Int) :
    ∀ (l s : List Movie) (i : Nat),
    ∃ app, phase2 k s i l = s ++ app ∧ app.Sublist l
  | [], s, i => ⟨[], by simp [phase2_nil], List.Sublist.refl _⟩
  | m :: rest, s, i => by
    rw [phase2_cons]
    by_cases hb : k ≤ (i : Int)
    · exact ⟨[], by simp [hb], by simp⟩
    · simp only [hb, if_false]
      by_cases ht : m.title ∈ s.map Movie.title
      · simp only [ht, if_true]
        rcases phase2_append k rest s i with ⟨app, happ, hsub⟩
        exact ⟨app, happ, hsub.cons m⟩
      · simp only [ht, if_false]
        rcases phase2_append k rest (s ++ [m]) (i + 1) with ⟨app, happ, hsub⟩
        exact ⟨m :: app, by simpa using happ, hsub.cons₂ m⟩

/-- When no incoming row repeats a slate title and the incoming titles are
distinct, the score-fill loop appends exactly the first
`recListSize - movieIndex` rows of its input frame. -/
theorem phase2_take (k : Int) :
    ∀ (l s : List Movie) (i : Nat),
    (∀ m ∈ l, m.title ∉ s.map Movie.title) →
    (l.map Movie.title).Nodup →
    phase2 k s i l = s ++ l.take (k.toNat - i)
  | [], s, i => by simp [phase2_nil]
  | m :: rest, s, i => by
    intro hfresh hnodup
    rw [phase2_cons]
    by_cases hb : k ≤ (i : Int)
    · have : k.toNat - i = 0 := by omega
      simp [hb, this]
    · have hm : m.title ∉ s.map Movie.title := hfresh m (List.mem_cons_self m rest)
      simp only [hb, if_false, hm, if_false]
      have hrest : phase2 k (s ++ [m]) (i + 1) rest =
          (s ++ [m]) ++ rest.take (k.toNat - (i + 1)) := by
        refine phase2_take k rest (s ++ [m]) (i + 1) ?_ ?_
        · intro z hz
          simp only [List.map_append, List.mem_append, List.map_cons,
            List.map_nil, List.mem_singleton]
          rintro (h | h)
          · exact hfresh z (List.mem_cons_of_mem m hz) h
          · have hh : (m.title :: rest.map Movie.title).Nodup := by
              simpa only [List.map_cons] using hnodup
            exact (List.nodup_cons.1 hh).1 (h ▸ List.mem_map_of_mem Movie.title hz)
        · have hh : (m.title :: rest.map Movie.title).Nodup := by
            simpa only [List.map_cons] using hnodup
          exact (List.nodup_cons.1 hh).2
      rw [hrest]
      have hcount : k.toNat - i = (k.toNat - (i + 1)) + 1 := by omega
      rw [hcount, List.take_succ_cons]
      simp

/-- Either the score-fill loop stopped because the slate is full, or it
walked the whole frame, so every incoming title occurs in the result. -/
theorem phase2_break (k : Int) :
    ∀ (l s : List Movie) (i : Nat), i ≤ s.length →
    (k ≤ ((phase2 k s i l).length : Int) ∨
      ∀ m ∈ l, m.title ∈ (phase2 k s i l).map Movie.title)
  | [], s, i => by
    intro _
    refine Or.inr ?_
    intro m hm
    exact absurd hm (List.not_mem_nil m)
  | m :: rest, s, i => by
    intro hi
    rw [phase2_cons]
    by_cases hb : k ≤ (i : Int)
    · simp only [hb, if_true]
      exact Or.inl (by exact_mod_cast hb.trans (by exact_mod_cast hi))
    · simp only [hb, if_false]
      by_cases ht : m.title ∈ s.map Movie.title
      · simp only [ht, if_true]
        rcases phase2_break k rest s i hi with h | h
        · exact Or.inl h
        · refine Or.inr ?_
          intro z hz
          rcases List.mem_cons.1 hz with rfl | hz
          · rcases phase2_append k rest s i with ⟨app, happ, -⟩
            rw [happ, List.map_append]
            exact List.mem_append_left _ ht
          · exact h z hz
      · simp only [ht, if_false]
        rcases phase2_break k rest (s ++ [m]) (i + 1) (by simp; omega) with h | h
        · exact Or.inl h
        · refine Or.inr ?_
          intro z hz
          rcases List.mem_cons.1 hz with heq | hz
          · rw [heq]
            rcases phase2_append k rest (s ++ [m]) (i + 1) with ⟨app, happ, -⟩
            rw [happ, List.map_append, List.map_append]
            exact List.mem_append_left _ (List.mem_append_right _ (by simp))
          · exact h z hz

/-! ### The re-ranking pipeline, unfolded -/

set_option maxRecDepth 4096

theorem reRank_eq (cands : List Movie) (k : Int) :
    reRank cands k =
      phase2 k
        ((phase1 (genresOf cands) k cands.length cands ∅ 0).steps.map Step.selected)
        (phase1 (genresOf cands) k cands.length cands ∅ 0).movieIndex
        (sortDesc (fun m => m.score)
          (phase1 (genresOf cands) k cands.length cands ∅ 0).remaining) := rfl

/-! ### Claim C2 -/

/-- Claim C2: on the candidates of Scenario A — A(100, Action), B(90,
Drama), C(80, Action and Drama), D(70, Comedy) — with slate size 3 the
re-ranker returns exactly the slate [C, D, A]. -/
theorem reRank_scenarioA : reRank scenarioA 3 = [mC, mD, mA] := by decide

/-! ### Claim C8 -/

/-- Claim C8: an empty candidate list is not an error; for every positive
slate size the re-ranker returns the empty slate. -/
theorem reRank_empty (k : Int) (hk : 0 < k) : reRank [] k = [] := rfl

/-- Witness for claim C8 at slate size 5. -/
theorem reRank_empty_witness : (0 : Int) < 5 ∧ reRank [] 5 = [] :=
  ⟨by decide, reRank_empty 5 (by decide)⟩

/-! ### Claim C5 -/

/-- Claim C5: at each Phase-1 step, the selected row has `nGenres` (new
coverage against the covered set of that step) at least that of every row
still remaining at that step. -/
theorem phase1_selected_max_newCoverage (cands : List Movie) (k : Int) :
    ∀ e ∈ (phase1 (genresOf cands) k cands.length cands ∅ 0).steps,
      ∀ m ∈ e.remainingBefore,
        nGenres e.coveredBefore m ≤ nGenres e.coveredBefore e.selected :=
  phase1_steps_max (genresOf cands) k cands.length cands ∅ 0

/-- Witness for claim C5: the first Scenario A step selects C, whose new
coverage dominates that of A. -/
theorem phase1_selected_max_newCoverage_witness :
    (⟨∅, scenarioA, mC⟩ : Step) ∈
      (phase1 (genresOf scenarioA) 3 scenarioA.length scenarioA ∅ 0).steps ∧
    mA ∈ scenarioA ∧ nGenres ∅ mA ≤ nGenres ∅ mC :=
  ⟨by decide, by decide,
    phase1_selected_max_newCoverage scenarioA 3 ⟨∅, scenarioA, mC⟩ (by decide)
      mA (by decide)⟩

/-! ### Claim C9 -/

/-- Claim C9: every row selected during the Phase-1 loop has new coverage
at least 1; the loop never picks a zero-gain row, because as long as an
uncovered genre of the candidate pool remains, some remaining row carries
it. -/
theorem phase1_selected_newCoverage_pos (cands : List Movie) (k : Int) :
    ∀ e ∈ (phase1 (genresOf cands) k cands.length cands ∅ 0).steps,
      1 ≤ nGenres e.coveredBefore e.selected :=
  phase1_steps_pos (genresOf cands) k cands.length cands ∅ 0
    (fun _ hz => Finset.mem_union_right _ hz)

/-- Witness for claim C9: the first Scenario A pick contributes two new
genres, in particular at least one. -/
theorem phase1_selected_newCoverage_pos_witness :
    (⟨∅, scenarioA, mC⟩ : Step) ∈
      (phase1 (genresOf scenarioA) 3 scenarioA.length scenarioA ∅ 0).steps ∧
    1 ≤ nGenres ∅ mC :=
  ⟨by decide,
    phase1_selected_newCoverage_pos scenarioA 3 ⟨∅, scenarioA, mC⟩ (by decide)⟩

/-! ### Claim C1 (amended) -/

/-- Claim C1 counterexample: two candidates with distinct identifiers but
the same title and slate size 2 satisfy the stated preconditions, yet the
returned slate has length 1, not `min(slateSize, number of candidates)`:
the second row is skipped by the title check of the fill loop. -/
theorem slate_length_counterexample :
    (dupTitle.map Movie.movieId).Nodup ∧ (0 : Int) < 2 ∧
      (reRank dupTitle 2).length ≠ min (Int.toNat 2) dupTitle.length := by decide

/-- Claim C1 as amended: when the candidate titles are also pairwise
distinct (in addition to the identifiers, which the algorithm never
compares), the slate length equals `min(slateSize, number of candidates)`
for every positive slate size. -/
theorem reRank_length_eq_min (cands : List Movie) (k : Int)
    (hid : (cands.map Movie.movieId).Nodup)
    (hti : (cands.map Movie.title).Nodup) (hk : 0 < k) :
    (reRank cands k).length = min k.toNat cands.length := by
  rw [reRank_eq]
  set r := phase1 (genresOf cands) k cands.length cands ∅ 0 with hr
  have hlen : r.steps.length + r.remaining.length = cands.length :=
    phase1_steps_length (genresOf cands) k cands.length cands ∅ 0
  have hidx : r.movieIndex = 0 + r.steps.length :=
    phase1_movieIndex (genresOf cands) k cands.length cands ∅ 0
  have hkle : (r.movieIndex : Int) ≤ k :=
    phase1_movieIndex_le (genresOf cands) k cands.length cands ∅ 0
      (by simpa using hk.le)
  have hperm : ((r.steps.map Step.selected ++ r.remaining)).Perm cands :=
    phase1_perm (genresOf cands) k cands.length cands ∅ 0
  have hnd : ((r.steps.map Step.selected).map Movie.title ++
      r.remaining.map Movie.title).Nodup := by
    rw [← List.map_append]
    exact ((hperm.map Movie.title).nodup_iff).2 hti
  rcases List.nodup_append.1 hnd with ⟨h1, h2, hdisj⟩
  have hlperm : (sortDesc (fun m => m.score) r.remaining).Perm r.remaining :=
    sortDesc_perm _ _
  have hfresh : ∀ m ∈ sortDesc (fun m => m.score) r.remaining,
      m.title ∉ (r.steps.map Step.selected).map Movie.title := by
    intro m hm hmem
    exact hdisj hmem
      (List.mem_map_of_mem Movie.title (hlperm.mem_iff.1 hm))
  have hlnodup : ((sortDesc (fun m => m.score) r.remaining).map Movie.title).Nodup :=
    ((hlperm.map Movie.title).nodup_iff).2 h2
  rw [phase2_take k _ _ _ hfresh hlnodup]
  rw [List.length_append, List.length_take, List.length_map, sortDesc_length]
  omega

/-- Witness for the amended claim C1 on Scenario A: four candidates,
distinct ids and titles, slate size 3, slate length `min 3 4 = 3`. -/
theorem reRank_length_eq_min_witness :
    (scenarioA.map Movie.movieId).Nodup ∧ (scenarioA.map Movie.title).Nodup ∧
      (0 : Int) < 3 ∧ (reRank scenarioA 3).length = min (Int.toNat 3) scenarioA.length :=
  ⟨by decide, by decide, by decide,
    reRank_length_eq_min scenarioA 3 (by decide) (by decide) (by decide)⟩

/-! ### Claim C7 -/

/-- Claim C7: for every candidate list with pairwise distinct identifiers
and positive slate size, no identifier appears twice in the returned
slate. -/
theorem reRank_nodup_ids (cands : List Movie) (k : Int)
    (hid : (cands.map Movie.movieId).Nodup) (hk : 0 < k) :
    ((reRank cands k).map Movie.movieId).Nodup := by
  rw [reRank_eq]
  set r := phase1 (genresOf cands) k cands.length cands ∅ 0 with hr
  rcases phase2_append k (sortDesc (fun m => m.score) r.remaining)
      (r.steps.map Step.selected) r.movieIndex with ⟨app, happ, hsub⟩
  rw [happ, List.map_append]
  have hperm : ((r.steps.map Step.selected ++ r.remaining)).Perm cands :=
    phase1_perm (genresOf cands) k cands.length cands ∅ 0
  have hip : ((r.steps.map Step.selected).map Movie.movieId ++
      r.remaining.map Movie.movieId).Nodup := by
    rw [← List.map_append]
    exact ((hperm.map Movie.movieId).nodup_iff).2 hid
  rcases List.nodup_append.1 hip with ⟨h1, h2, hdisj⟩
  refine List.nodup_append.2 ⟨h1, ?_, ?_⟩
  · have hms : (app.map Movie.movieId).Sublist
        ((sortDesc (fun m => m.score) r.remaining).map Movie.movieId) :=
      hsub.map _
    exact hms.nodup (((sortDesc_perm _ r.remaining).map Movie.movieId).nodup_iff.2 h2)
  · intro a ha hb
    rcases List.mem_map.1 hb with ⟨m, hm, rfl⟩
    exact hdisj ha
      (List.mem_map_of_mem Movie.movieId
        ((sortDesc_mem _ r.remaining m).1 (hsub.subset hm)))

/-- Witness for claim C7 on Scenario A. -/
theorem reRank_nodup_ids_witness :
    (scenarioA.map Movie.movieId).Nodup ∧ (0 : Int) < 3 ∧
      ((reRank scenarioA 3).map Movie.movieId).Nodup :=
  ⟨by decide, by decide, reRank_nodup_ids scenarioA 3 (by decide) (by decide)⟩

/-! ### Claim C6 -/

/-- Claim C6: once the greedy loop stops, the fill loop appends the
leftover rows in non-increasing order of score — the slate suffix after
the Phase-1 picks is sorted by non-increasing score — and it stops only
when the slate has reached the slate size or every leftover row has been
consumed (appended, or skipped because its title is already present). -/
theorem phase2_score_order (cands : List Movie) (k : Int) :
    ((reRank cands k).drop
        (phase1 (genresOf cands) k cands.length cands ∅ 0).steps.length).Pairwise
      (fun a b => b.score ≤ a.score) ∧
    (k ≤ ((reRank cands k).length : Int) ∨
      ∀ m ∈ (phase1 (genresOf cands) k cands.length cands ∅ 0).remaining,
        m.title ∈ (reRank cands k).map Movie.title) := by
  rw [reRank_eq]
  set r := phase1 (genresOf cands) k cands.length cands ∅ 0 with hr
  constructor
  · rcases phase2_append k (sortDesc (fun m => m.score) r.remaining)
        (r.steps.map Step.selected) r.movieIndex with ⟨app, happ, hsub⟩
    rw [happ]
    have hd : ((r.steps.map Step.selected) ++ app).drop r.steps.length = app := by
      have hlm : r.steps.length = (r.steps.map Step.selected).length :=
        (List.length_map _ _).symm
      rw [hlm, List.drop_left]
    rw [hd]
    exact List.Pairwise.sublist hsub (sortDesc_pairwise _ _)
  · have hmi : r.movieIndex ≤ (r.steps.map Step.selected).length := by
      rw [List.length_map]
      have hidx : r.movieIndex = 0 + r.steps.length :=
        phase1_movieIndex (genresOf cands) k cands.length cands ∅ 0
      omega
    rcases phase2_break k (sortDesc (fun m => m.score) r.remaining)
        (r.steps.map Step.selected) r.movieIndex hmi with h | h
    · exact Or.inl h
    · refine Or.inr ?_
      intro m hm
      exact h m ((sortDesc_mem _ r.remaining m).2 hm)

/-! ### Claim C3 (amended) -/

/-- Claim C3 counterexample: on the candidates P(100, a), Q(90, b c),
R(80, a b) with slate size 3, the second greedy step has P and R remaining
and tied on new coverage, yet the loop selects R, which comes later than P
in the original score order: after the first iteration the frame is left
in the previous `nGenres` order, not the score order, so ties at later
steps are not broken by the original order. -/
theorem stable_tiebreak_counterexample :
    ¬(∀ e ∈ (phase1 (genresOf scenarioT) 3 scenarioT.length scenarioT ∅ 0).steps,
      ∀ m ∈ e.remainingBefore,
        nGenres e.coveredBefore m = nGenres e.coveredBefore e.selected →
          scenarioT.indexOf e.selected ≤ scenarioT.indexOf m) := by decide

/-- Claim C3 as amended: at the FIRST Phase-1 step the selection is stable
with respect to the original order — the selected row is the earliest
candidate attaining the maximal new coverage (every candidate is bounded
by it and every strictly earlier candidate is strictly below it); at later
steps ties are broken by the order left behind by the previous iteration
instead. -/
theorem reRank_first_pick_first_max (cands : List Movie) (k : Int)
    (hg : (genresOf cands).Nonempty) (hk : 0 < k) :
    ∃ top l₁ l₂, cands = l₁ ++ top :: l₂ ∧
      (reRank cands k).head? = some top ∧
      (∀ z ∈ cands, nGenres ∅ z ≤ nGenres ∅ top) ∧
      ∀ z ∈ l₁, nGenres ∅ z < nGenres ∅ top := by
  rcases cands with _ | ⟨c, cs⟩
  · rcases hg with ⟨x, hx⟩
    rcases (mem_genresOf x []).1 hx with ⟨m, hm, -⟩
    exact absurd hm (List.not_mem_nil m)
  · rcases hs : sortDesc (nGenres ∅) (c :: cs) with _ | ⟨top, rest⟩
    · have hl := sortDesc_length (nGenres ∅) (c :: cs)
      rw [hs] at hl
      simp at hl
    · rcases sortDesc_head_spec (nGenres ∅) (c :: cs) top rest hs with
        ⟨l₁, l₂, hdec, hmax, hstrict⟩
      refine ⟨top, l₁, l₂, hdec, ?_, hmax, hstrict⟩
      rw [reRank_eq]
      have hc : ((genresOf (c :: cs)) \ ∅).Nonempty ∧ ((0 : Nat) : Int) < k := by
        refine ⟨?_, by exact_mod_cast hk⟩
        simpa [Finset.sdiff_empty] using hg
      simp only [List.length_cons]
      rw [phase1_succ_cons (genresOf (c :: cs)) k cs.length (c :: cs) ∅ 0 top
        rest hc hs]
      rcases phase2_append k
          (sortDesc (fun m => m.score)
            (phase1 (genresOf (c :: cs)) k cs.length rest
              (∅ ∪ top.genres.toFinset) (0 + 1)).remaining)
          ((⟨⟨∅, c :: cs, top⟩ ::
              (phase1 (genresOf (c :: cs)) k cs.length rest
                (∅ ∪ top.genres.toFinset) (0 + 1)).steps,
            (phase1 (genresOf (c :: cs)) k cs.length rest
              (∅ ∪ top.genres.toFinset) (0 + 1)).remaining,
            (phase1 (genresOf (c :: cs)) k cs.length rest
              (∅ ∪ top.genres.toFinset) (0 + 1)).movieIndex⟩ : Phase1Result).steps.map
            Step.selected)
          (⟨⟨∅, c :: cs, top⟩ ::
              (phase1 (genresOf (c :: cs)) k cs.length rest
                (∅ ∪ top.genres.toFinset) (0 + 1)).steps,
            (phase1 (genresOf (c :: cs)) k cs.length rest
              (∅ ∪ top.genres.toFinset) (0 + 1)).remaining,
            (phase1 (genresOf (c :: cs)) k cs.length rest
              (∅ ∪ top.genres.toFinset) (0 + 1)).movieIndex⟩ : Phase1Result).movieIndex
          with ⟨app, happ, -⟩
      rw [happ]
      simp

/-- Witness for the amended claim C3 on Scenario A with slate size 3. -/
theorem reRank_first_pick_first_max_witness :
    (genresOf scenarioA).Nonempty ∧ (0 : Int) < 3 ∧
      ∃ top l₁ l₂, scenarioA = l₁ ++ top :: l₂ ∧
        (reRank scenarioA 3).head? = some top ∧
        (∀ z ∈ scenarioA, nGenres ∅ z ≤ nGenres ∅ top) ∧
        ∀ z ∈ l₁, nGenres ∅ z < nGenres ∅ top :=
  ⟨by decide, by decide,
    reRank_first_pick_first_max scenarioA 3 (by decide) (by decide)⟩

/-! ### Claim C4 (amended) -/

/-- Claim C4 counterexample: a candidate list with a duplicated identifier
is not rejected; the re-ranker processes it normally and returns both rows
as an ordinary slate, so there is no immediate InvalidArgument failure and
certainly not the absence of a result. -/
theorem no_invalid_argument_counterexample :
    ¬(dupId.map Movie.movieId).Nodup ∧ reRank dupId 2 = [mI1, mI2] := by decide

/-- Claim C4 as amended: the re-ranking cell performs no input
validation: every slate size at most 0 simply yields an empty slate (the
loop conditions are false at once), and a candidate list with a duplicated
identifier is processed normally, returning an ordinary slate. -/
theorem reRank_no_validation :
    (∀ (cands : List Movie) (k : Int), k ≤ 0 → reRank cands k = []) ∧
      reRank dupId 2 = [mI1, mI2] := by
  constructor
  · intro cands k hk
    rw [reRank_eq]
    have hc : ¬((genresOf cands \ ∅).Nonempty ∧ ((0 : Nat) : Int) < k) := by
      rintro ⟨-, h⟩
      omega
    have hp : phase1 (genresOf cands) k cands.length cands ∅ 0 =
        ⟨[], cands, 0⟩ := by
      rcases hn : cands.length with _ | f
      · exact phase1_zero (genresOf cands) k cands ∅ 0
      · exact phase1_succ_stop (genresOf cands) k f cands ∅ 0 hc
    rw [hp]
    rcases hl : sortDesc (fun m => m.score) cands with _ | ⟨m, rest⟩
    · simp [phase2_nil]
    · rw [List.map_nil, phase2_cons]
      have hble : k ≤ ((0 : Nat) : Int) := by omega
      rw [if_pos hble]
  · decide

/-- Witness for the amended claim C4: slate size 0 on a one-row candidate
list yields the empty slate. -/
theorem reRank_no_validation_witness : reRank [mA] 0 = [] :=
  reRank_no_validation.1 [mA] 0 (by decide)

/-! ### Claim C10 (amended) -/

/-- Claim C10 counterexample: two candidates with distinct identifiers and
the same title can BOTH appear in the slate — the greedy loop performs no
title check, so when both rows are picked there, the claimed at-most-one
bound fails. -/
theorem title_dedup_counterexample :
    mT1.movieId ≠ mT2.movieId ∧ mT1.title = mT2.title ∧
      reRank dupTitleBoth 2 = [mT1, mT2] := by decide

/-- Claim C10 as amended: the fill loop (only) excludes rows by comparing
titles, not identifiers; with two distinct-id same-title candidates the
slate can therefore end shorter than `min(slateSize, number of
candidates)`, as it does here — but two same-title rows may both appear
when both are selected by the greedy loop. -/
theorem title_dedup_shortfall :
    mS1.movieId ≠ mS2.movieId ∧ mS1.title = mS2.title ∧
      reRank dupTitle 2 = [mS1] ∧
      (reRank dupTitle 2).length < min (Int.toNat 2) dupTitle.length := by decide
